import Mathlib

/-!
Shallow embedding of the CPU cache simulator (`cachesim.py`) and proofs of
the specification claims about it.

Modelling conventions:
* Python non-negative machine integers become `Nat` (addresses in the replay
  claims are non-negative; the trace parser models Python `int(s, 16)` and so
  returns `Int` to account for a possible sign).
* Python exceptions become `Except`: `Cache.__init__` raising `RuntimeError`
  (and the `ZeroDivisionError` / `OverflowError` it can hit on degenerate
  geometry) becomes `Except ConfigError Cache`; the uncaught `ValueError`
  from `int(parts[1], 16)` in `read_trace_file` becomes
  `Except TraceError (List (String × Int))`.
* Python lists mutated in place become functional updates with `List.set`.
* `float('inf')` as the initial LRU minimum becomes `Option Nat` with `none`
  standing for infinity.
* `int(np.log2 x)` (truncation of the float log) is `floorLog2 x`, the floor
  base-2 logarithm, which agrees for every positive integer input.
* The float `total_hits / total_requests` of `get_hit_rate` is modelled as
  the exact rational quotient.
-/

namespace CacheSim

/-- One cache line's metadata, mirroring class `Block` of `cachesim.py`. -/
structure Block where
  size : Nat
  valid : Bool
  dirty : Bool
  tag : Nat
  data : List Nat
  last_used : Nat
deriving DecidableEq, Repr

instance : Inhabited Block := ⟨⟨0, false, false, 0, [], 0⟩⟩

/-- Model of `Block.__init__`: created invalid, clean, tag 0, zeroed data. -/
def Block.mk0 (size : Nat) : Block :=
  { size := size, valid := false, dirty := false, tag := 0,
    data := List.replicate size 0, last_used := 0 }

/-- Model of `Set.__init__`: the `lines` list of a set, `num_ways` fresh blocks.
(The Python `Set` class is a bare wrapper around this list.) -/
def setLines (num_ways block_size : Nat) : List Block :=
  List.replicate num_ways (Block.mk0 block_size)

/-- The class-scoped integer constants `Cache.PlacementType`. -/
def PlacementType.Direct_Mapped : Nat := 0
def PlacementType.Two_Way : Nat := 1
def PlacementType.Four_Way : Nat := 2
def PlacementType.Fully_Associative : Nat := 3

/-- The class-scoped integer constants `Cache.WritePolicy`. -/
def WritePolicy.WB : Nat := 0
def WritePolicy.WT : Nat := 1

/-- Helper for `floorLog2`, structurally recursive on a fuel argument so that
concrete geometries evaluate inside the kernel. -/
def floorLog2Aux : Nat → Nat → Nat
  | 0, _ => 0
  | fuel + 1, n => if 2 ≤ n then floorLog2Aux fuel (n / 2) + 1 else 0

/-- Floor base-2 logarithm: the value of `int(np.log2 n)` for every positive
integer `n` (the float log truncates to the floor there). -/
def floorLog2 (n : Nat) : Nat :=
  floorLog2Aux n n

/-- The ways `Cache.__init__` can fail.  The first three are the explicit
`RuntimeError`s it raises; the last two are the `ZeroDivisionError` at
`num_blocks // num_ways` (fully associative, `num_ways = 0`) and the
`OverflowError` from `int(np.log2(0))` when `num_sets = 0`. -/
inductive ConfigError where
  | blockSizeZero
  | cacheSizeZero
  | invalidPlacement
  | zeroWaysDivision
  | zeroSetsLog
deriving DecidableEq, Repr

/-- The message carried by the raised `RuntimeError`, for the explicit raises. -/
def ConfigError.message : ConfigError → String
  | .blockSizeZero => "Block size must be greater than zero."
  | .cacheSizeZero => "Cache size must be greater than zero."
  | .invalidPlacement => "Invalid placement type."
  | .zeroWaysDivision => "ZeroDivisionError"
  | .zeroSetsLog => "OverflowError"

/-- Whether the Python exception is a `RuntimeError` — the only class the
sweep driver `simulate_trace` catches. -/
def ConfigError.isRuntimeError : ConfigError → Bool
  | .blockSizeZero => true
  | .cacheSizeZero => true
  | .invalidPlacement => true
  | .zeroWaysDivision => false
  | .zeroSetsLog => false

/-- The cache state: geometry, derived parameters, sets and counters,
mirroring the attributes set by `Cache.__init__`. -/
structure Cache where
  cache_size : Nat
  block_size : Nat
  placement_type : Nat
  write_policy : Nat
  num_ways : Nat
  num_blocks : Nat
  num_sets : Nat
  offset_bits : Nat
  set_bits : Nat
  tag_shift : Nat
  sets : List (List Block)
  total_requests : Nat
  total_hits : Nat
  bytes_to_cache : Nat
  bytes_to_memory : Nat
  access_count : Nat
deriving DecidableEq, Repr

/-- Model of `Cache.__init__(cache_size, block_size, write_policy, placement_type)`.
Note the source validates the sizes and the placement value but never
validates `write_policy`. -/
def Cache.init (cache_size block_size write_policy placement_type : Nat) :
    Except ConfigError Cache :=
  if block_size = 0 then .error .blockSizeZero
  else if cache_size = 0 then .error .cacheSizeZero
  else if placement_type > 3 then .error .invalidPlacement
  else
    let num_ways : Nat :=
      if placement_type = PlacementType.Direct_Mapped then 1
      else if placement_type = PlacementType.Two_Way then 2
      else if placement_type = PlacementType.Four_Way then 4
      else cache_size / block_size
    if num_ways = 0 then .error .zeroWaysDivision
    else
      let num_blocks := cache_size / block_size
      let num_sets := num_blocks / num_ways
      if placement_type ≠ PlacementType.Fully_Associative ∧ num_sets = 0 then
        .error .zeroSetsLog
      else
        let offset_bits := floorLog2 block_size
        let set_bits :=
          if placement_type = PlacementType.Fully_Associative then 0
          else floorLog2 num_sets
        .ok { cache_size := cache_size
              block_size := block_size
              placement_type := placement_type
              write_policy := write_policy
              num_ways := num_ways
              num_blocks := num_blocks
              num_sets := num_sets
              offset_bits := offset_bits
              set_bits := set_bits
              tag_shift := offset_bits + set_bits
              sets := List.replicate num_sets (setLines num_ways block_size)
              total_requests := 0
              total_hits := 0
              bytes_to_cache := 0
              bytes_to_memory := 0
              access_count := 0 }

/-- Model of `Cache.get_tag`. -/
def Cache.get_tag (c : Cache) (address : Nat) : Nat :=
  address >>> c.tag_shift

/-- Model of `Cache.get_block_index`. -/
def Cache.get_block_index (c : Cache) (address : Nat) : Nat :=
  if c.placement_type = PlacementType.Fully_Associative then 0
  else (address >>> c.offset_bits) &&& ((1 <<< c.set_bits) - 1)

/-- Model of `Cache.get_block_offset`. -/
def Cache.get_block_offset (c : Cache) (address : Nat) : Nat :=
  address &&& (c.block_size - 1)

/-- The hit-scan loop shared by `read` and `write`: index of the first way
that is valid and holds `tag`, scanning from relative index `i`. -/
def scanHit (lines : List Block) (tag : Nat) (i : Nat) : Option Nat :=
  match lines with
  | [] => none
  | b :: rest => if b.valid && b.tag == tag then some i else scanHit rest tag (i + 1)

/-- The scan loop of `Cache.find_lru_block`, carrying the running index,
`min_used` (`none` is the initial `float('inf')`) and `min_index`. -/
def findLRUScan (lines : List Block) (i : Nat) (min_used : Option Nat)
    (min_index : Nat) : Nat :=
  match lines with
  | [] => min_index
  | b :: rest =>
    if !b.valid then i
    else
      match min_used with
      | none => findLRUScan rest (i + 1) (some b.last_used) i
      | some m =>
        if b.last_used < m then findLRUScan rest (i + 1) (some b.last_used) i
        else findLRUScan rest (i + 1) (some m) min_index

/-- Model of `Cache.find_lru_block` as a function of the set's lines. -/
def findLRUList (lines : List Block) : Nat :=
  findLRUScan lines 0 none 0

/-- Model of `Cache.find_lru_block`. -/
def Cache.find_lru_block (c : Cache) (set_index : Nat) : Nat :=
  findLRUList (c.sets.getD set_index [])

/-- The in-place update of the hit path of `read`: stamp `last_used` on the
block at way `i`. -/
def stampRead (lines : List Block) (i ac : Nat) : List Block :=
  lines.set i { lines.getD i default with last_used := ac }

/-- The in-place update of the hit path of `write`: stamp `last_used`, and in
write-back mode also set the dirty bit. -/
def stampWrite (lines : List Block) (i ac : Nat) (wb : Bool) : List Block :=
  lines.set i
    (let b := lines.getD i default
     { b with last_used := ac, dirty := if wb then true else b.dirty })

/-- The install of the miss path of `read`: `valid := true, dirty := false,
tag := tag, last_used := ac` at way `i`. -/
def installRead (lines : List Block) (i tag ac : Nat) : List Block :=
  lines.set i
    { lines.getD i default with valid := true, dirty := false, tag := tag,
                                last_used := ac }

/-- The install of the miss path of `write`: valid, tagged, stamped, dirty
exactly in write-back mode (the write-through branch clears the bit). -/
def installWrite (lines : List Block) (i tag ac : Nat) (wb : Bool) : List Block :=
  lines.set i
    { lines.getD i default with valid := true, dirty := wb, tag := tag,
                                last_used := ac }

/-- Model of `Cache.read(address)`, returning the updated cache and the hit flag. -/
def Cache.read (c : Cache) (address : Nat) : Cache × Bool :=
  let set_index := c.get_block_index address
  let tag := c.get_tag address
  let lines := c.sets.getD set_index []
  match scanHit lines tag 0 with
  | some i =>
    let ac := c.access_count + 1
    ({ c with total_requests := c.total_requests + 1,
              total_hits := c.total_hits + 1,
              access_count := ac,
              sets := c.sets.set set_index (stampRead lines i ac) }, true)
  | none =>
    let ri := c.find_lru_block set_index
    let victim := lines.getD ri default
    let wbPenalty :=
      if c.write_policy == WritePolicy.WB && victim.valid && victim.dirty then
        c.block_size
      else 0
    let ac := c.access_count + 1
    ({ c with total_requests := c.total_requests + 1,
              bytes_to_cache := c.bytes_to_cache + c.block_size,
              bytes_to_memory := c.bytes_to_memory + wbPenalty,
              access_count := ac,
              sets := c.sets.set set_index (installRead lines ri tag ac) }, false)

/-- Model of `Cache.write(address)`, returning the updated cache and the hit flag.
Every policy comparison in the source is `== WritePolicy.WB`, so any
write-policy value other than 0 takes the write-through branches. -/
def Cache.write (c : Cache) (address : Nat) : Cache × Bool :=
  let set_index := c.get_block_index address
  let tag := c.get_tag address
  let lines := c.sets.getD set_index []
  let wb := c.write_policy == WritePolicy.WB
  match scanHit lines tag 0 with
  | some i =>
    let ac := c.access_count + 1
    ({ c with total_requests := c.total_requests + 1,
              total_hits := c.total_hits + 1,
              access_count := ac,
              bytes_to_memory := c.bytes_to_memory + (if wb then 0 else 4),
              sets := c.sets.set set_index (stampWrite lines i ac wb) }, true)
  | none =>
    let ri := c.find_lru_block set_index
    let victim := lines.getD ri default
    let wbPenalty :=
      if wb && victim.valid && victim.dirty then c.block_size else 0
    let wtPenalty := if wb then 0 else 4
    let ac := c.access_count + 1
    ({ c with total_requests := c.total_requests + 1,
              bytes_to_cache := c.bytes_to_cache + c.block_size,
              bytes_to_memory := c.bytes_to_memory + wbPenalty + wtPenalty,
              access_count := ac,
              sets := c.sets.set set_index (installWrite lines ri tag ac wb) },
     false)

/-- Model of `Cache.get_hit_rate`, with the float quotient modelled exactly. -/
def Cache.get_hit_rate (c : Cache) : Rat :=
  if c.total_requests = 0 then 0
  else (c.total_hits : Rat) / (c.total_requests : Rat)

/-- One trace operation, as dispatched by the sweep driver. -/
inductive Op where
  | read (address : Nat)
  | write (address : Nat)
deriving DecidableEq, Repr

/-- Apply one trace operation to a cache (the driver discards the hit flag). -/
def step (c : Cache) : Op → Cache
  | .read a => (c.read a).1
  | .write a => (c.write a).1

/-- Replay a trace against a cache, in file order. -/
def replay (c : Cache) (ops : List Op) : Cache :=
  ops.foldl step c

/-- Number of write operations in a trace. -/
def countWrites : List Op → Nat
  | [] => 0
  | .read _ :: rest => countWrites rest
  | .write _ :: rest => countWrites rest + 1

/-- Holds exactly when `Cache.__init__` succeeds on these arguments. -/
def initOk (cache_size block_size write_policy placement_type : Nat) : Bool :=
  match Cache.init cache_size block_size write_policy placement_type with
  | .ok _ => true
  | .error _ => false

/-- One configuration of the sweep, in the order `simulate_trace` passes the
arguments to `Cache`. -/
structure Config where
  cache_size : Nat
  block_size : Nat
  write_policy : Nat
  placement_type : Nat
deriving DecidableEq, Repr

/-- The per-configuration loop body of `simulate_trace`: construct the cache,
skip the configuration when construction raises `RuntimeError` (the only
class the `except` clause names), propagate any other exception, and
otherwise replay the whole trace.  The harvested final cache states stand
for the result records. -/
def sweep (ops : List Op) : List Config → Except ConfigError (List Cache)
  | [] => .ok []
  | cfg :: rest =>
    match Cache.init cfg.cache_size cfg.block_size cfg.write_policy
        cfg.placement_type with
    | .ok c => (sweep ops rest).map (fun cs => replay c ops :: cs)
    | .error e =>
      if e.isRuntimeError then sweep ops rest else .error e

/-- Helper for `pySplit`: walk the characters, accumulating the current field
in reverse; whitespace ends a field, runs of whitespace produce nothing. -/
def splitWSAux : List Char → List Char → List String
  | [], acc => if acc.isEmpty then [] else [String.mk acc.reverse]
  | ch :: rest, acc =>
    if ch.isWhitespace then
      if acc.isEmpty then splitWSAux rest []
      else String.mk acc.reverse :: splitWSAux rest []
    else splitWSAux rest (ch :: acc)

/-- Python `line.strip().split()`: split on whitespace runs, no empty parts. -/
def pySplit (line : String) : List String :=
  splitWSAux line.data []

/-- Value of one hexadecimal digit, as accepted by Python `int(s, 16)`. -/
def hexVal (ch : Char) : Option Nat :=
  if '0' ≤ ch ∧ ch ≤ '9' then some (ch.toNat - '0'.toNat)
  else if 'a' ≤ ch ∧ ch ≤ 'f' then some (ch.toNat - 'a'.toNat + 10)
  else if 'A' ≤ ch ∧ ch ≤ 'F' then some (ch.toNat - 'A'.toNat + 10)
  else none

/-- The digit part of Python `int(s, 16)` after sign and base prefix: one or
more hex digits, with single underscores allowed between digits (and right
after the base prefix, which is what `canU` starts as). -/
def parseHexBody (cs : List Char) (acc : Nat) (seenDigit canU : Bool) :
    Option Nat :=
  match cs with
  | [] => if seenDigit then some acc else none
  | ch :: rest =>
    match hexVal ch with
    | some d => parseHexBody rest (acc * 16 + d) true true
    | none =>
      if ch = '_' ∧ canU then
        match rest with
        | [] => none
        | ch2 :: rest2 =>
          match hexVal ch2 with
          | some d => parseHexBody rest2 (acc * 16 + d) true true
          | none => none
      else none

/-- Python `int(s, 16)`: optional sign, optional `0x`/`0X` prefix, then hex
digits; `none` models the `ValueError` it raises otherwise. -/
def pyIntHex (s : String) : Option Int :=
  let afterSign : List Char → Option Nat := fun cs =>
    match cs with
    | '0' :: 'x' :: rest => parseHexBody rest 0 false true
    | '0' :: 'X' :: rest => parseHexBody rest 0 false true
    | rest => parseHexBody rest 0 false false
  match s.data with
  | [] => none
  | '+' :: rest => (afterSign rest).map (fun n => (n : Int))
  | '-' :: rest => (afterSign rest).map (fun n => -(n : Int))
  | cs => (afterSign cs).map (fun n => (n : Int))

/-- The uncaught `ValueError` of `int(parts[1], 16)` in `read_trace_file`,
carrying the offending field. -/
inductive TraceError where
  | valueError (field : String)
deriving DecidableEq, Repr

/-- The line loop of `read_trace_file` on the file's lines: a line that
splits into exactly two fields is parsed (a bad hex field raises), any other
line is skipped silently. -/
def readTraceLines : List String → Except TraceError (List (String × Int))
  | [] => .ok []
  | line :: rest =>
    let parts := pySplit line
    if parts.length = 2 then
      match pyIntHex (parts.getD 1 "") with
      | none => .error (.valueError (parts.getD 1 ""))
      | some a =>
        (readTraceLines rest).map (fun ops => (parts.getD 0 "", a) :: ops)
    else readTraceLines rest

/-- The geometry and configuration fields of a cache, bundled: everything
`Cache.__init__` computes other than the sets and the counters. -/
def geom (c : Cache) :
    Nat × Nat × Nat × Nat × Nat × Nat × Nat × Nat × Nat × Nat :=
  (c.cache_size, c.block_size, c.placement_type, c.write_policy, c.num_ways,
   c.num_blocks, c.num_sets, c.offset_bits, c.set_bits, c.tag_shift)

/-- The counter relations that hold in every reachable cache state. -/
def CountersOk (c : Cache) : Prop :=
  c.total_hits ≤ c.total_requests ∧
  c.access_count = c.total_requests ∧
  c.bytes_to_cache = (c.total_requests - c.total_hits) * c.block_size

/-- No two distinct ways of a set are simultaneously valid with the same tag. -/
def noDupTags (lines : List Block) : Prop :=
  ∀ i, i < lines.length → ∀ j, j < lines.length → i ≠ j →
    (lines.getD i default).valid = true → (lines.getD j default).valid = true →
    (lines.getD i default).tag ≠ (lines.getD j default).tag

/-- Every set of the cache satisfies `noDupTags`. -/
def cacheNoDup (c : Cache) : Prop :=
  ∀ s ∈ c.sets, noDupTags s

/-- The cache produced by `Cache.init 8 4 WB Direct_Mapped`, written out;
used as the concrete configuration of the witnesses. -/
def demoCache : Cache :=
  { cache_size := 8, block_size := 4, placement_type := 0, write_policy := 0,
    num_ways := 1, num_blocks := 2, num_sets := 2, offset_bits := 2,
    set_bits := 1, tag_shift := 3,
    sets := [[Block.mk0 4], [Block.mk0 4]],
    total_requests := 0, total_hits := 0, bytes_to_cache := 0,
    bytes_to_memory := 0, access_count := 0 }

/-- Like `demoCache` but write-through, i.e. `Cache.init 8 4 WT Direct_Mapped`. -/
def demoCacheWT : Cache :=
  { demoCache with write_policy := 1 }

/-- A short concrete trace for the witnesses. -/
def demoOps : List Op :=
  [Op.read 0x00, Op.write 0x08, Op.read 0x00, Op.read 0x08]

/-- A fully valid four-way set with recency stamps 5, 3, 4, 3: LRU must pick
way 1, the earliest way holding the minimal stamp. -/
def demoSet : List Block :=
  [{ size := 4, valid := true, dirty := false, tag := 10, data := [],
     last_used := 5 },
   { size := 4, valid := true, dirty := true, tag := 11, data := [],
     last_used := 3 },
   { size := 4, valid := true, dirty := false, tag := 12, data := [],
     last_used := 4 },
   { size := 4, valid := true, dirty := false, tag := 13, data := [],
     last_used := 3 }]

/-- A cache holding `demoSet`, for exercising the replacement policy. -/
def demoLRU : Cache :=
  { cache_size := 16, block_size := 4, placement_type := 3, write_policy := 0,
    num_ways := 4, num_blocks := 4, num_sets := 1, offset_bits := 2,
    set_bits := 0, tag_shift := 2,
    sets := [demoSet],
    total_requests := 5, total_hits := 1, bytes_to_cache := 16,
    bytes_to_memory := 0, access_count := 5 }

/-- The cache produced by `Cache.init 10 4 WB Direct_Mapped`: construction
succeeds although the 10-byte capacity is not a multiple of the geometry
product `num_sets * num_ways * block_size = 8`. -/
def demoBad : Cache :=
  { cache_size := 10, block_size := 4, placement_type := 0, write_policy := 0,
    num_ways := 1, num_blocks := 2, num_sets := 2, offset_bits := 2,
    set_bits := 1, tag_shift := 3,
    sets := [[Block.mk0 4], [Block.mk0 4]],
    total_requests := 0, total_hits := 0, bytes_to_cache := 0,
    bytes_to_memory := 0, access_count := 0 }

/-- The cache produced by `Cache.init 8 4 7 Direct_Mapped`: the write-policy
value 7 matches neither `WritePolicy.WB` nor `WritePolicy.WT`, yet
construction succeeds and stores it verbatim. -/
def demoCacheWP7 : Cache :=
  { demoCache with write_policy := 7 }

/-! ### List helper lemmas -/

theorem getD_set_self {α : Type} (l : List α) (i : Nat) (b d : α)
    (h : i < l.length) : (l.set i b).getD i d = b := by
  induction l generalizing i with
  | nil => simp at h
  | cons x xs ih =>
    cases i with
    | zero => rfl
    | succ n =>
      have := ih n (by simpa using h)
      simpa [List.set] using this

theorem getD_set_ne {α : Type} (l : List α) (i j : Nat) (b d : α)
    (h : j ≠ i) : (l.set i b).getD j d = l.getD j d := by
  induction l generalizing i j with
  | nil => rfl
  | cons x xs ih =>
    cases i with
    | zero =>
      cases j with
      | zero => exact absurd rfl h
      | succ m => rfl
    | succ n =>
      cases j with
      | zero => rfl
      | succ m =>
        have := ih n m (fun hc => h (by simpa using hc))
        simpa [List.set] using this

theorem getD_replicate {α : Type} (n i : Nat) (a d : α) (h : i < n) :
    (List.replicate n a).getD i d = a := by
  induction n generalizing i with
  | zero => simp at h
  | succ m ih =>
    cases i with
    | zero => rfl
    | succ k =>
      have := ih k (by omega)
      simpa [List.replicate] using this

/-! ### The hit scan -/

theorem scanHit_none (lines : List Block) (tag : Nat) :
    ∀ i, scanHit lines tag i = none →
      ∀ j, j < lines.length → (lines.getD j default).valid = true →
        (lines.getD j default).tag ≠ tag := by
  induction lines with
  | nil => intro i _ j hj; simp at hj
  | cons b rest ih =>
    intro i h j hj
    by_cases hb : (b.valid && b.tag == tag) = true
    · simp [scanHit, hb] at h
    · cases j with
      | zero =>
        intro hv
        simp [List.getD_cons_zero] at hv ⊢
        simp [hv] at hb
        exact hb
      | succ m =>
        have hrest : scanHit rest tag (i + 1) = none := by
          simpa [scanHit, hb] using h
        have := ih (i + 1) hrest m (by simpa using hj)
        simpa using this

/-! ### Field-level behaviour of `read` and `write` -/

theorem read_fields (c : Cache) (a : Nat) :
    ((c.read a).1.total_requests = c.total_requests + 1 ∧
     (c.read a).1.access_count = c.access_count + 1 ∧
     geom (c.read a).1 = geom c) ∧
    (((c.read a).2 = true ∧ (c.read a).1.total_hits = c.total_hits + 1 ∧
        (c.read a).1.bytes_to_cache = c.bytes_to_cache) ∨
     ((c.read a).2 = false ∧ (c.read a).1.total_hits = c.total_hits ∧
        (c.read a).1.bytes_to_cache = c.bytes_to_cache + c.block_size)) := by
  simp only [Cache.read]
  cases h : scanHit (c.sets.getD (c.get_block_index a) []) (c.get_tag a) 0 <;>
    simp [h, geom]

theorem write_fields (c : Cache) (a : Nat) :
    ((c.write a).1.total_requests = c.total_requests + 1 ∧
     (c.write a).1.access_count = c.access_count + 1 ∧
     geom (c.write a).1 = geom c) ∧
    (((c.write a).2 = true ∧ (c.write a).1.total_hits = c.total_hits + 1 ∧
        (c.write a).1.bytes_to_cache = c.bytes_to_cache) ∨
     ((c.write a).2 = false ∧ (c.write a).1.total_hits = c.total_hits ∧
        (c.write a).1.bytes_to_cache = c.bytes_to_cache + c.block_size)) := by
  simp only [Cache.write]
  cases h : scanHit (c.sets.getD (c.get_block_index a) []) (c.get_tag a) 0 <;>
    simp [h, geom]

theorem read_bytes_to_memory_wt (c : Cache) (a : Nat)
    (h : c.write_policy ≠ WritePolicy.WB) :
    (c.read a).1.bytes_to_memory = c.bytes_to_memory := by
  have hb : (c.write_policy == WritePolicy.WB) = false := by
    simpa using h
  simp only [Cache.read]
  cases hs : scanHit (c.sets.getD (c.get_block_index a) []) (c.get_tag a) 0 <;>
    simp [hs, hb]

theorem write_bytes_to_memory_wt (c : Cache) (a : Nat)
    (h : c.write_policy ≠ WritePolicy.WB) :
    (c.write a).1.bytes_to_memory = c.bytes_to_memory + 4 := by
  have hb : (c.write_policy == WritePolicy.WB) = false := by
    simpa using h
  simp only [Cache.write]
  cases hs : scanHit (c.sets.getD (c.get_block_index a) []) (c.get_tag a) 0 <;>
    simp [hs, hb]

/-! ### The step relation and the replay -/

theorem step_fields (c : Cache) (op : Op) :
    (step c op).total_requests = c.total_requests + 1 ∧
    (step c op).access_count = c.access_count + 1 ∧
    geom (step c op) = geom c ∧
    (((step c op).total_hits = c.total_hits + 1 ∧
        (step c op).bytes_to_cache = c.bytes_to_cache) ∨
     ((step c op).total_hits = c.total_hits ∧
        (step c op).bytes_to_cache = c.bytes_to_cache + c.block_size)) := by
  cases op with
  | read a =>
    obtain ⟨⟨h1, h2, h3⟩, h4⟩ := read_fields c a
    refine ⟨h1, h2, h3, ?_⟩
    rcases h4 with ⟨_, h5, h6⟩ | ⟨_, h5, h6⟩
    · exact Or.inl ⟨h5, h6⟩
    · exact Or.inr ⟨h5, h6⟩
  | write a =>
    obtain ⟨⟨h1, h2, h3⟩, h4⟩ := write_fields c a
    refine ⟨h1, h2, h3, ?_⟩
    rcases h4 with ⟨_, h5, h6⟩ | ⟨_, h5, h6⟩
    · exact Or.inl ⟨h5, h6⟩
    · exact Or.inr ⟨h5, h6⟩

theorem geom_fields (c c' : Cache) (h : geom c' = geom c) :
    c'.cache_size = c.cache_size ∧ c'.block_size = c.block_size ∧
    c'.placement_type = c.placement_type ∧ c'.write_policy = c.write_policy ∧
    c'.num_ways = c.num_ways ∧ c'.num_blocks = c.num_blocks ∧
    c'.num_sets = c.num_sets ∧ c'.offset_bits = c.offset_bits ∧
    c'.set_bits = c.set_bits ∧ c'.tag_shift = c.tag_shift := by
  simpa [geom, Prod.ext_iff] using h

theorem replay_nil (c : Cache) : replay c [] = c := rfl

theorem replay_cons (c : Cache) (op : Op) (ops : List Op) :
    replay c (op :: ops) = replay (step c op) ops := rfl

theorem replay_ind (P : Cache → Prop)
    (hP : ∀ c op, P c → P (step c op)) (ops : List Op) :
    ∀ c, P c → P (replay c ops) := by
  induction ops with
  | nil => intro c h; exact h
  | cons op rest ih => intro c h; exact ih (step c op) (hP c op h)

theorem replay_geom (ops : List Op) (c : Cache) :
    geom (replay c ops) = geom c := by
  induction ops generalizing c with
  | nil => rfl
  | cons op rest ih =>
    rw [replay_cons]
    exact (ih (step c op)).trans (step_fields c op).2.2.1

/-! ### The counter invariant -/

theorem countersOk_step (c : Cache) (op : Op) (h : CountersOk c) :
    CountersOk (step c op) := by
  obtain ⟨hle, hac, hb2c⟩ := h
  obtain ⟨h1, h2, hg, h4⟩ := step_fields c op
  have hbs : (step c op).block_size = c.block_size :=
    (geom_fields c (step c op) hg).2.1
  rcases h4 with ⟨hh, hb⟩ | ⟨hh, hb⟩
  · refine ⟨by omega, by omega, ?_⟩
    rw [hb, h1, hh, hbs, hb2c]
    congr 1
    omega
  · refine ⟨by omega, by omega, ?_⟩
    rw [hb, h1, hh, hbs, hb2c]
    have : c.total_requests + 1 - c.total_hits =
        (c.total_requests - c.total_hits) + 1 := by omega
    rw [this, Nat.succ_mul]

theorem replay_countersOk (ops : List Op) (c : Cache) (h : CountersOk c) :
    CountersOk (replay c ops) :=
  replay_ind CountersOk countersOk_step ops c h

/-! ### Elimination of a successful construction -/

theorem init_fields (cs bs wp pt : Nat) (c0 : Cache)
    (h : Cache.init cs bs wp pt = .ok c0) :
    c0.cache_size = cs ∧ c0.block_size = bs ∧ c0.placement_type = pt ∧
    c0.write_policy = wp ∧
    c0.num_ways = (if pt = PlacementType.Direct_Mapped then 1
      else if pt = PlacementType.Two_Way then 2
      else if pt = PlacementType.Four_Way then 4 else cs / bs) ∧
    c0.num_blocks = cs / bs ∧
    c0.num_sets = (cs / bs) / c0.num_ways ∧
    c0.num_ways ≠ 0 ∧
    c0.sets = List.replicate c0.num_sets (setLines c0.num_ways bs) ∧
    c0.total_requests = 0 ∧ c0.total_hits = 0 ∧ c0.bytes_to_cache = 0 ∧
    c0.bytes_to_memory = 0 ∧ c0.access_count = 0 := by
  simp only [Cache.init] at h
  split_ifs at h
  all_goals injection h with h
  all_goals subst h
  all_goals
    simp_all [PlacementType.Direct_Mapped, PlacementType.Two_Way,
      PlacementType.Four_Way, PlacementType.Fully_Associative]

theorem init_countersOk (cs bs wp pt : Nat) (c0 : Cache)
    (h : Cache.init cs bs wp pt = .ok c0) : CountersOk c0 := by
  obtain ⟨-, -, -, -, -, -, -, -, -, htr, hth, hbc, -, hac⟩ :=
    init_fields cs bs wp pt c0 h
  exact ⟨by omega, by omega, by rw [hbc, htr, hth]; simp⟩

/-! ### Claims about counters -/

/-- Claim C1: after construction, every sequence of read/write calls keeps
`bytes_to_cache = (total_requests - total_hits) * block_size`; each missing
read or write adds exactly `block_size` to `bytes_to_cache` and each hit
leaves it unchanged. -/
theorem spec_C1 (cs bs wp pt : Nat) (c0 : Cache) (ops : List Op)
    (h : Cache.init cs bs wp pt = .ok c0) :
    (replay c0 ops).bytes_to_cache =
      ((replay c0 ops).total_requests - (replay c0 ops).total_hits) *
        (replay c0 ops).block_size ∧
    ∀ (c : Cache) (a : Nat),
      ((c.read a).2 = false →
        (c.read a).1.bytes_to_cache = c.bytes_to_cache + c.block_size) ∧
      ((c.read a).2 = true →
        (c.read a).1.bytes_to_cache = c.bytes_to_cache) ∧
      ((c.write a).2 = false →
        (c.write a).1.bytes_to_cache = c.bytes_to_cache + c.block_size) ∧
      ((c.write a).2 = true →
        (c.write a).1.bytes_to_cache = c.bytes_to_cache) := by
  constructor
  · exact (replay_countersOk ops c0 (init_countersOk cs bs wp pt c0 h)).2.2
  · intro c a
    obtain ⟨-, hr⟩ := read_fields c a
    obtain ⟨-, hw⟩ := write_fields c a
    refine ⟨?_, ?_, ?_, ?_⟩ <;> intro hflag
    · rcases hr with ⟨hf, -, -⟩ | ⟨-, -, hb⟩
      · rw [hflag] at hf; cases hf
      · exact hb
    · rcases hr with ⟨-, -, hb⟩ | ⟨hf, -, -⟩
      · exact hb
      · rw [hflag] at hf; cases hf
    · rcases hw with ⟨hf, -, -⟩ | ⟨-, -, hb⟩
      · rw [hflag] at hf; cases hf
      · exact hb
    · rcases hw with ⟨-, -, hb⟩ | ⟨hf, -, -⟩
      · exact hb
      · rw [hflag] at hf; cases hf

/-- Witness for C1 on the concrete write-back direct-mapped cache. -/
theorem spec_C1_witness :
    (replay demoCache demoOps).bytes_to_cache =
      ((replay demoCache demoOps).total_requests -
        (replay demoCache demoOps).total_hits) *
        (replay demoCache demoOps).block_size :=
  (spec_C1 8 4 0 0 demoCache demoOps rfl).1

/-- Claim C9: each read or write increments `access_count` exactly once, so
`access_count = total_requests` in every reachable state and `access_count`
is strictly increasing across requests. -/
theorem spec_C9 (cs bs wp pt : Nat) (c0 : Cache) (ops : List Op)
    (h : Cache.init cs bs wp pt = .ok c0) :
    (replay c0 ops).access_count = (replay c0 ops).total_requests ∧
    ∀ (c : Cache) (op : Op),
      (step c op).access_count = c.access_count + 1 := by
  refine ⟨(replay_countersOk ops c0 (init_countersOk cs bs wp pt c0 h)).2.1, ?_⟩
  intro c op
  exact (step_fields c op).2.1

/-- Witness for C9 on the concrete write-back direct-mapped cache. -/
theorem spec_C9_witness :
    (replay demoCache demoOps).access_count =
      (replay demoCache demoOps).total_requests :=
  (spec_C9 8 4 0 0 demoCache demoOps rfl).1

/-- Claim C7: `get_hit_rate` is `total_hits / total_requests` for a nonzero
request count and `0` otherwise, and always lies in `[0, 1]` because
`total_hits` never exceeds `total_requests`. -/
theorem spec_C7 (cs bs wp pt : Nat) (c0 : Cache) (ops : List Op)
    (h : Cache.init cs bs wp pt = .ok c0) :
    (replay c0 ops).total_hits ≤ (replay c0 ops).total_requests ∧
    ((replay c0 ops).total_requests = 0 →
      (replay c0 ops).get_hit_rate = 0) ∧
    (0 < (replay c0 ops).total_requests →
      (replay c0 ops).get_hit_rate =
        ((replay c0 ops).total_hits : Rat) /
          ((replay c0 ops).total_requests : Rat)) ∧
    0 ≤ (replay c0 ops).get_hit_rate ∧
    (replay c0 ops).get_hit_rate ≤ 1 := by
  have hle : (replay c0 ops).total_hits ≤ (replay c0 ops).total_requests :=
    (replay_countersOk ops c0 (init_countersOk cs bs wp pt c0 h)).1
  refine ⟨hle, ?_, ?_, ?_, ?_⟩
  · intro h0
    simp [Cache.get_hit_rate, h0]
  · intro h0
    simp [Cache.get_hit_rate, Nat.pos_iff_ne_zero.mp h0]
  · unfold Cache.get_hit_rate
    split
    · exact le_refl 0
    · positivity
  · unfold Cache.get_hit_rate
    split
    · exact zero_le_one
    · rename_i h0
      have hpos : (0 : Rat) < ((replay c0 ops).total_requests : Rat) := by
        exact_mod_cast Nat.pos_of_ne_zero h0
      rw [div_le_one hpos]
      exact_mod_cast hle

/-- Witness for C7 on the concrete write-back direct-mapped cache. -/
theorem spec_C7_witness :
    0 ≤ (replay demoCache demoOps).get_hit_rate ∧
    (replay demoCache demoOps).get_hit_rate ≤ 1 :=
  ⟨(spec_C7 8 4 0 0 demoCache demoOps rfl).2.2.2.1,
   (spec_C7 8 4 0 0 demoCache demoOps rfl).2.2.2.2⟩

/-! ### Claim about write-through traffic -/

theorem replay_bytes_to_memory_wt (ops : List Op) (c : Cache)
    (h : c.write_policy ≠ WritePolicy.WB) :
    (replay c ops).bytes_to_memory = c.bytes_to_memory + 4 * countWrites ops := by
  induction ops generalizing c with
  | nil => simp [replay_nil, countWrites]
  | cons op rest ih =>
    rw [replay_cons]
    have hwp : (step c op).write_policy ≠ WritePolicy.WB := by
      rw [(geom_fields c (step c op) (step_fields c op).2.2.1).2.2.2.1]
      exact h
    rw [ih (step c op) hwp]
    cases op with
    | read a =>
      have hb : (step c (Op.read a)).bytes_to_memory = c.bytes_to_memory :=
        read_bytes_to_memory_wt c a h
      rw [hb]
      simp [countWrites]
    | write a =>
      have hb : (step c (Op.write a)).bytes_to_memory = c.bytes_to_memory + 4 :=
        write_bytes_to_memory_wt c a h
      rw [hb]
      simp only [countWrites]
      omega

/-- Claim C5: on a write-through cache, `bytes_to_memory` is four bytes per
write operation, hit or miss, and reads never add to it. -/
theorem spec_C5 (cs bs pt : Nat) (c0 : Cache) (ops : List Op)
    (h : Cache.init cs bs WritePolicy.WT pt = .ok c0) :
    (replay c0 ops).bytes_to_memory = 4 * countWrites ops ∧
    ∀ (c : Cache) (a : Nat), c.write_policy = WritePolicy.WT →
      (c.read a).1.bytes_to_memory = c.bytes_to_memory := by
  constructor
  · obtain ⟨-, -, -, hwp, -, -, -, -, -, -, -, -, hb2m, -⟩ :=
      init_fields cs bs WritePolicy.WT pt c0 h
    have hne : c0.write_policy ≠ WritePolicy.WB := by
      rw [hwp]
      simp [WritePolicy.WT, WritePolicy.WB]
    rw [replay_bytes_to_memory_wt ops c0 hne, hb2m, Nat.zero_add]
  · intro c a hc
    refine read_bytes_to_memory_wt c a ?_
    rw [hc]
    simp [WritePolicy.WT, WritePolicy.WB]

/-- Witness for C5 on the concrete write-through direct-mapped cache. -/
theorem spec_C5_witness :
    (replay demoCacheWT demoOps).bytes_to_memory = 4 * countWrites demoOps :=
  (spec_C5 8 4 0 demoCacheWT demoOps rfl).1

/-! ### The replacement policy -/

theorem findLRUScan_first_invalid (lines : List Block) :
    ∀ (i min_index : Nat) (min_used : Option Nat) (k : Nat),
      k < lines.length → (lines.getD k default).valid = false →
      (∀ j, j < k → (lines.getD j default).valid = true) →
      findLRUScan lines i min_used min_index = i + k := by
  induction lines with
  | nil => intro i mi mu k hk; simp at hk
  | cons b rest ih =>
    intro i mi mu k hk hinv hval
    cases k with
    | zero =>
      have hb : b.valid = false := by simpa using hinv
      simp [findLRUScan, hb]
    | succ m =>
      have hb : b.valid = true := by simpa using hval 0 (Nat.succ_pos m)
      have hrec : ∀ (mu' : Option Nat) (mi' : Nat),
          findLRUScan rest (i + 1) mu' mi' = (i + 1) + m := by
        intro mu' mi'
        exact ih (i + 1) mi' mu' m (by simpa using hk) (by simpa using hinv)
          (fun j hj => by simpa using hval (j + 1) (by omega))
      cases mu with
      | none =>
        rw [show findLRUScan (b :: rest) i none mi =
            findLRUScan rest (i + 1) (some b.last_used) i by
          simp [findLRUScan, hb]]
        rw [hrec]
        omega
      | some m' =>
        by_cases hlt : b.last_used < m'
        · rw [show findLRUScan (b :: rest) i (some m') mi =
              findLRUScan rest (i + 1) (some b.last_used) i by
            simp [findLRUScan, hb, hlt]]
          rw [hrec]
          omega
        · rw [show findLRUScan (b :: rest) i (some m') mi =
              findLRUScan rest (i + 1) (some m') mi by
            simp [findLRUScan, hb, hlt]]
          rw [hrec]
          omega

theorem findLRUScan_all_valid (lines : List Block) :
    ∀ (i mi m : Nat),
      (∀ k, k < lines.length → (lines.getD k default).valid = true) →
      (findLRUScan lines i (some m) mi = mi ∧
        ∀ k, k < lines.length → m ≤ (lines.getD k default).last_used) ∨
      (∃ k, k < lines.length ∧ findLRUScan lines i (some m) mi = i + k ∧
        (lines.getD k default).last_used < m ∧
        (∀ j, j < lines.length →
          (lines.getD k default).last_used ≤ (lines.getD j default).last_used) ∧
        (∀ j, j < k →
          (lines.getD k default).last_used < (lines.getD j default).last_used)) := by
  induction lines with
  | nil =>
    intro i mi m _
    left
    exact ⟨rfl, fun k hk => absurd hk (by simp)⟩
  | cons b rest ih =>
    intro i mi m hall
    have hb : b.valid = true := by simpa using hall 0 (by simp)
    have hrest : ∀ k, k < rest.length → (rest.getD k default).valid = true :=
      fun k hk => by simpa using hall (k + 1) (by simpa using hk)
    by_cases hlt : b.last_used < m
    · have heq : findLRUScan (b :: rest) i (some m) mi =
          findLRUScan rest (i + 1) (some b.last_used) i := by
        simp [findLRUScan, hb, hlt]
      rcases ih (i + 1) i b.last_used hrest with
        ⟨hval, hmin⟩ | ⟨k, hk, hval, hklt, hmin, hstrict⟩
      · right
        refine ⟨0, by simp, by rw [heq, hval]; omega, by simpa using hlt, ?_, ?_⟩
        · intro j hj
          cases j with
          | zero => exact Nat.le_refl _
          | succ n => simpa using hmin n (by simpa using hj)
        · intro j hj
          exact absurd hj (Nat.not_lt_zero j)
      · right
        refine ⟨k + 1, by simpa using hk, ?_, ?_, ?_, ?_⟩
        · rw [heq, hval]
          omega
        · simpa using Nat.lt_trans hklt hlt
        · intro j hj
          cases j with
          | zero => simpa using Nat.le_of_lt hklt
          | succ n => simpa using hmin n (by simpa using hj)
        · intro j hj
          cases j with
          | zero => simpa using hklt
          | succ n => simpa using hstrict n (by omega)
    · have heq : findLRUScan (b :: rest) i (some m) mi =
          findLRUScan rest (i + 1) (some m) mi := by
        simp [findLRUScan, hb, hlt]
      have hm : m ≤ b.last_used := Nat.le_of_not_lt hlt
      rcases ih (i + 1) mi m hrest with
        ⟨hval, hmin⟩ | ⟨k, hk, hval, hklt, hmin, hstrict⟩
      · left
        refine ⟨heq.trans hval, ?_⟩
        intro k hk
        cases k with
        | zero => simpa using hm
        | succ n => simpa using hmin n (by simpa using hk)
      · right
        refine ⟨k + 1, by simpa using hk, ?_, by simpa using hklt, ?_, ?_⟩
        · rw [heq, hval]
          omega
        · intro j hj
          cases j with
          | zero =>
            simpa using Nat.le_of_lt (Nat.lt_of_lt_of_le hklt hm)
          | succ n => simpa using hmin n (by simpa using hj)
        · intro j hj
          cases j with
          | zero => simpa using Nat.lt_of_lt_of_le hklt hm
          | succ n => simpa using hstrict n (by omega)

theorem findLRUList_first_invalid (lines : List Block) (k : Nat)
    (hk : k < lines.length) (hinv : (lines.getD k default).valid = false)
    (hval : ∀ j, j < k → (lines.getD j default).valid = true) :
    findLRUList lines = k := by
  simpa using findLRUScan_first_invalid lines 0 0 none k hk hinv hval

theorem findLRUList_all_valid (lines : List Block) (hlen : 0 < lines.length)
    (hall : ∀ k, k < lines.length → (lines.getD k default).valid = true) :
    findLRUList lines < lines.length ∧
    (∀ j, j < lines.length →
      (lines.getD (findLRUList lines) default).last_used ≤
        (lines.getD j default).last_used) ∧
    (∀ j, j < findLRUList lines →
      (lines.getD (findLRUList lines) default).last_used <
        (lines.getD j default).last_used) := by
  cases lines with
  | nil => simp at hlen
  | cons b rest =>
    have hb : b.valid = true := by simpa using hall 0 (by simp)
    have hrest : ∀ k, k < rest.length → (rest.getD k default).valid = true :=
      fun k hk => by simpa using hall (k + 1) (by simpa using hk)
    have heq : findLRUList (b :: rest) =
        findLRUScan rest 1 (some b.last_used) 0 := by
      simp [findLRUList, findLRUScan, hb]
    rcases findLRUScan_all_valid rest 1 0 b.last_used hrest with
      ⟨hval, hmin⟩ | ⟨k, hk, hval, hklt, hmin, hstrict⟩
    · rw [heq, hval]
      refine ⟨by simp, ?_, ?_⟩
      · intro j hj
        cases j with
        | zero => exact Nat.le_refl _
        | succ n => simpa using hmin n (by simpa using hj)
      · intro j hj
        exact absurd hj (Nat.not_lt_zero j)
    · rw [heq, hval, show 1 + k = k + 1 from Nat.add_comm 1 k]
      refine ⟨by simpa using hk, ?_, ?_⟩
      · intro j hj
        cases j with
        | zero => simpa using Nat.le_of_lt hklt
        | succ n => simpa using hmin n (by simpa using hj)
      · intro j hj
        cases j with
        | zero => simpa using hklt
        | succ n => simpa using hstrict n (by omega)

/-- Claim C3: `find_lru_block` returns the first invalid way in scan order if
one exists, and otherwise the way with the smallest `last_used` value,
resolving ties in favour of the earliest index. -/
theorem spec_C3 (c : Cache) (set_index : Nat) :
    (∀ k, k < (c.sets.getD set_index []).length →
      ((c.sets.getD set_index []).getD k default).valid = false →
      (∀ j, j < k →
        ((c.sets.getD set_index []).getD j default).valid = true) →
      c.find_lru_block set_index = k) ∧
    (0 < (c.sets.getD set_index []).length →
      (∀ k, k < (c.sets.getD set_index []).length →
        ((c.sets.getD set_index []).getD k default).valid = true) →
      c.find_lru_block set_index < (c.sets.getD set_index []).length ∧
      (∀ j, j < (c.sets.getD set_index []).length →
        ((c.sets.getD set_index []).getD (c.find_lru_block set_index)
            default).last_used ≤
          ((c.sets.getD set_index []).getD j default).last_used) ∧
      (∀ j, j < c.find_lru_block set_index →
        ((c.sets.getD set_index []).getD (c.find_lru_block set_index)
            default).last_used <
          ((c.sets.getD set_index []).getD j default).last_used)) := by
  constructor
  · intro k hk hinv hval
    exact findLRUList_first_invalid (c.sets.getD set_index []) k hk hinv hval
  · intro hlen hall
    exact findLRUList_all_valid (c.sets.getD set_index []) hlen hall

/-- Witness for C3 on a fully valid four-way set with stamps 5, 3, 4, 3. -/
theorem spec_C3_witness :
    demoLRU.find_lru_block 0 < (demoLRU.sets.getD 0 []).length ∧
    (∀ j, j < (demoLRU.sets.getD 0 []).length →
      ((demoLRU.sets.getD 0 []).getD (demoLRU.find_lru_block 0)
          default).last_used ≤
        ((demoLRU.sets.getD 0 []).getD j default).last_used) ∧
    (∀ j, j < demoLRU.find_lru_block 0 →
      ((demoLRU.sets.getD 0 []).getD (demoLRU.find_lru_block 0)
          default).last_used <
        ((demoLRU.sets.getD 0 []).getD j default).last_used) :=
  (spec_C3 demoLRU 0).2 (by decide) (by decide)

/-! ### The no-duplicate-tags invariant -/

theorem getD_mem_or_eq {α : Type} (l : List α) (i : Nat) (d : α) :
    l.getD i d ∈ l ∨ l.getD i d = d := by
  induction l generalizing i with
  | nil => right; rfl
  | cons x xs ih =>
    cases i with
    | zero => left; exact List.mem_cons_self x xs
    | succ n =>
      rcases ih n with h | h
      · left; exact List.mem_cons_of_mem x (by simpa using h)
      · right; simpa using h

theorem noDupTags_nil : noDupTags [] := by
  intro i hi
  simp at hi

theorem noDupTags_setLines (w bs : Nat) : noDupTags (setLines w bs) := by
  intro i hi j hj hne hvi hvj
  exfalso
  have hi' : i < w := by simpa [setLines] using hi
  have : (setLines w bs).getD i default = Block.mk0 bs := by
    simpa [setLines] using getD_replicate w i (Block.mk0 bs) default hi'
  rw [this] at hvi
  simp [Block.mk0] at hvi

theorem noDupTags_congr (l l' : List Block)
    (hlen : l'.length = l.length)
    (hpt : ∀ j, j < l.length →
      (l'.getD j default).valid = (l.getD j default).valid ∧
      (l'.getD j default).tag = (l.getD j default).tag)
    (h : noDupTags l) : noDupTags l' := by
  intro i hi j hj hne hvi hvj
  have hi' : i < l.length := hlen ▸ hi
  have hj' : j < l.length := hlen ▸ hj
  obtain ⟨hvi2, hti⟩ := hpt i hi'
  obtain ⟨hvj2, htj⟩ := hpt j hj'
  rw [hti, htj]
  exact h i hi' j hj' hne (hvi2 ▸ hvi) (hvj2 ▸ hvj)

theorem noDupTags_stampRead (l : List Block) (i ac : Nat)
    (h : noDupTags l) : noDupTags (stampRead l i ac) := by
  refine noDupTags_congr l (stampRead l i ac) (List.length_set l i _) ?_ h
  intro j hj
  by_cases hji : j = i
  · subst hji
    rw [stampRead, getD_set_self l j _ default hj]
    exact ⟨rfl, rfl⟩
  · rw [stampRead, getD_set_ne l i j _ default hji]
    exact ⟨rfl, rfl⟩

theorem noDupTags_stampWrite (l : List Block) (i ac : Nat) (wb : Bool)
    (h : noDupTags l) : noDupTags (stampWrite l i ac wb) := by
  refine noDupTags_congr l (stampWrite l i ac wb) (List.length_set l i _) ?_ h
  intro j hj
  by_cases hji : j = i
  · subst hji
    rw [stampWrite, getD_set_self l j _ default hj]
    exact ⟨rfl, rfl⟩
  · rw [stampWrite, getD_set_ne l i j _ default hji]
    exact ⟨rfl, rfl⟩

theorem noDupTags_install (l : List Block) (ri : Nat) (b : Block)
    (h : noDupTags l)
    (hmiss : ∀ j, j < l.length → (l.getD j default).valid = true →
      (l.getD j default).tag ≠ b.tag) :
    noDupTags (l.set ri b) := by
  intro i hi j hj hne hvi hvj
  have hlen : (l.set ri b).length = l.length := List.length_set l ri b
  have hi' : i < l.length := hlen ▸ hi
  have hj' : j < l.length := hlen ▸ hj
  by_cases hieq : i = ri
  · subst hieq
    have hjne : j ≠ i := fun hc => hne hc.symm
    rw [getD_set_self l i b default hi']
    rw [getD_set_ne l i j b default hjne] at hvj ⊢
    intro hc
    exact hmiss j hj' hvj hc.symm
  · by_cases hjeq : j = ri
    · subst hjeq
      rw [getD_set_ne l j i b default hieq] at hvi ⊢
      rw [getD_set_self l j b default hj']
      exact hmiss i hi' hvi
    · rw [getD_set_ne l ri i b default hieq] at hvi ⊢
      rw [getD_set_ne l ri j b default hjeq] at hvj ⊢
      exact h i hi' j hj' hne hvi hvj

theorem read_sets_cases (c : Cache) (a : Nat) :
    ∃ newLines,
      (c.read a).1.sets = c.sets.set (c.get_block_index a) newLines ∧
      (noDupTags (c.sets.getD (c.get_block_index a) []) →
        noDupTags newLines) := by
  cases hs : scanHit (c.sets.getD (c.get_block_index a) []) (c.get_tag a) 0 with
  | some i =>
    refine ⟨stampRead (c.sets.getD (c.get_block_index a) [])
      i (c.access_count + 1), ?_, ?_⟩
    · simp only [Cache.read, hs]
    · exact noDupTags_stampRead _ i (c.access_count + 1)
  | none =>
    refine ⟨installRead (c.sets.getD (c.get_block_index a) [])
      (c.find_lru_block (c.get_block_index a)) (c.get_tag a)
      (c.access_count + 1), ?_, ?_⟩
    · simp only [Cache.read, hs]
    · intro h
      refine noDupTags_install _ _ _ h ?_
      intro j hj hv
      simpa using scanHit_none _ (c.get_tag a) 0 hs j hj hv

theorem write_sets_cases (c : Cache) (a : Nat) :
    ∃ newLines,
      (c.write a).1.sets = c.sets.set (c.get_block_index a) newLines ∧
      (noDupTags (c.sets.getD (c.get_block_index a) []) →
        noDupTags newLines) := by
  cases hs : scanHit (c.sets.getD (c.get_block_index a) []) (c.get_tag a) 0 with
  | some i =>
    refine ⟨stampWrite (c.sets.getD (c.get_block_index a) [])
      i (c.access_count + 1) (c.write_policy == WritePolicy.WB), ?_, ?_⟩
    · simp only [Cache.write, hs]
    · exact noDupTags_stampWrite _ i (c.access_count + 1) _
  | none =>
    refine ⟨installWrite (c.sets.getD (c.get_block_index a) [])
      (c.find_lru_block (c.get_block_index a)) (c.get_tag a)
      (c.access_count + 1) (c.write_policy == WritePolicy.WB), ?_, ?_⟩
    · simp only [Cache.write, hs]
    · intro h
      refine noDupTags_install _ _ _ h ?_
      intro j hj hv
      simpa using scanHit_none _ (c.get_tag a) 0 hs j hj hv

theorem cacheNoDup_step (c : Cache) (op : Op) (h : cacheNoDup c) :
    cacheNoDup (step c op) := by
  have hlines : noDupTags (c.sets.getD (c.get_block_index
      (match op with | .read a => a | .write a => a)) []) := by
    rcases getD_mem_or_eq c.sets
      (c.get_block_index (match op with | .read a => a | .write a => a)) []
      with hm | he
    · exact h _ hm
    · rw [he]; exact noDupTags_nil
  cases op with
  | read a =>
    obtain ⟨nl, hsets, hnl⟩ := read_sets_cases c a
    intro s hsmem
    simp only [step] at hsmem
    rw [hsets] at hsmem
    rcases List.mem_or_eq_of_mem_set hsmem with hmem | heq
    · exact h s hmem
    · rw [heq]
      exact hnl hlines
  | write a =>
    obtain ⟨nl, hsets, hnl⟩ := write_sets_cases c a
    intro s hsmem
    simp only [step] at hsmem
    rw [hsets] at hsmem
    rcases List.mem_or_eq_of_mem_set hsmem with hmem | heq
    · exact h s hmem
    · rw [heq]
      exact hnl hlines

theorem init_cacheNoDup (cs bs wp pt : Nat) (c0 : Cache)
    (h : Cache.init cs bs wp pt = .ok c0) : cacheNoDup c0 := by
  obtain ⟨-, -, -, -, -, -, -, -, hsets, -, -, -, -, -⟩ :=
    init_fields cs bs wp pt c0 h
  intro s hs
  rw [hsets] at hs
  rw [List.eq_of_mem_replicate hs]
  exact noDupTags_setLines _ _

/-- Claim C6: from any freshly constructed cache, every sequence of reads and
writes preserves the invariant that no set holds two distinct valid ways with
the same tag. -/
theorem spec_C6 (cs bs wp pt : Nat) (c0 : Cache) (ops : List Op)
    (h : Cache.init cs bs wp pt = .ok c0) :
    cacheNoDup (replay c0 ops) :=
  replay_ind cacheNoDup cacheNoDup_step ops c0
    (init_cacheNoDup cs bs wp pt c0 h)

/-- Witness for C6 on the concrete write-back direct-mapped cache. -/
theorem spec_C6_witness : cacheNoDup (replay demoCache demoOps) :=
  spec_C6 8 4 0 0 demoCache demoOps rfl

/-! ### Geometry claims -/

/-- Counterexample to claim C4 as stated: `Cache.init 10 4 WB Direct_Mapped`
succeeds, is not fully associative, and yet
`num_sets * num_ways * block_size = 8 ≠ 10 = cache_size`; likewise
`Cache.init 12 4 WB Two_Way` succeeds with product `8 ≠ 12` although there the
block size does divide the cache size (the way count does not divide the
block count). -/
theorem spec_C4_cex :
    ¬ (∀ (cs bs wp pt : Nat) (c : Cache), Cache.init cs bs wp pt = .ok c →
        pt ≠ PlacementType.Fully_Associative →
        c.num_sets * c.num_ways * c.block_size = c.cache_size) ∧
    (Cache.init 12 4 WritePolicy.WB PlacementType.Two_Way).map
      (fun c => (c.num_sets * c.num_ways * c.block_size, c.cache_size)) =
      .ok (8, 12) := by
  constructor
  · intro hclaim
    have h := hclaim 10 4 0 PlacementType.Direct_Mapped demoBad rfl (by decide)
    revert h
    decide
  · rfl

/-- Claim C4 (amended): for a successfully constructed non-fully-associative
cache whose block size divides the cache size and whose way count divides the
block count, `num_sets * num_ways * block_size = cache_size`; for a
successfully constructed fully-associative cache, `num_ways = cache_size /
block_size` (floor division) and `num_sets = 1`; and the geometry fields are
never changed by read or write. -/
theorem spec_C4 (cs bs wp pt : Nat) (c0 : Cache)
    (h : Cache.init cs bs wp pt = .ok c0) :
    (pt ≠ PlacementType.Fully_Associative → bs ∣ cs →
      c0.num_ways ∣ cs / bs →
      c0.num_sets * c0.num_ways * c0.block_size = c0.cache_size) ∧
    (pt = PlacementType.Fully_Associative →
      c0.num_ways = cs / bs ∧ c0.num_sets = 1) ∧
    ∀ ops, geom (replay c0 ops) = geom c0 := by
  obtain ⟨hcs, hbs, hpt, -, hways, -, hns, hw0, -, -, -, -, -, -⟩ :=
    init_fields cs bs wp pt c0 h
  refine ⟨?_, ?_, fun ops => replay_geom ops c0⟩
  · intro hfa hdvd1 hdvd2
    rw [hns, hbs, hcs, Nat.div_mul_cancel hdvd2, Nat.div_mul_cancel hdvd1]
  · intro hfa
    have hw : c0.num_ways = cs / bs := by
      rw [hways, hfa]
      simp [PlacementType.Direct_Mapped, PlacementType.Two_Way,
        PlacementType.Four_Way, PlacementType.Fully_Associative]
    refine ⟨hw, ?_⟩
    rw [hns, hw]
    exact Nat.div_self (Nat.pos_of_ne_zero (hw ▸ hw0))

/-- Witness for C4 on the concrete write-back direct-mapped cache. -/
theorem spec_C4_witness :
    demoCache.num_sets * demoCache.num_ways * demoCache.block_size =
      demoCache.cache_size :=
  (spec_C4 8 4 0 0 demoCache rfl).1 (by decide) (by decide) (by decide)

/-! ### Construction errors and the sweep -/

set_option maxHeartbeats 1000000 in
theorem init_write_policy_irrelevant (cs bs wp wp' pt : Nat) (c : Cache)
    (h : Cache.init cs bs wp pt = .ok c) :
    Cache.init cs bs wp' pt = .ok { c with write_policy := wp' } := by
  simp only [Cache.init] at h ⊢
  split_ifs at h ⊢
  all_goals first
    | exact Except.noConfusion h
    | (injection h with h; subst h; rfl)

/-- Counterexample to claim C2 as stated: construction does not fail on an
unrecognized write-policy value — `Cache.init 8 4 7 Direct_Mapped` produces a
cache although 7 is neither `WritePolicy.WB` nor `WritePolicy.WT`. -/
theorem spec_C2_cex :
    ¬ (∀ (cs bs wp pt : Nat) (c : Cache), wp ≠ WritePolicy.WB →
        wp ≠ WritePolicy.WT → Cache.init cs bs wp pt ≠ .ok c) := by
  intro hclaim
  exact hclaim 8 4 7 0 demoCacheWP7 (by decide) (by decide) rfl

/-- Claim C2 (amended): construction fails with a distinguishable
configuration error when the block size is zero, when the block size is
nonzero but the cache size is zero, and when both are nonzero but the
placement value is unrecognized — and in each such case no cache is produced
and the sweep driver skips the configuration and continues with the rest.
Whether construction succeeds is independent of the write-policy value, so an
unrecognized write-policy value does not fail construction. -/
theorem spec_C2 :
    (∀ cs wp pt, Cache.init cs 0 wp pt = .error .blockSizeZero) ∧
    (∀ bs wp pt, bs ≠ 0 → Cache.init 0 bs wp pt = .error .cacheSizeZero) ∧
    (∀ cs bs wp pt, cs ≠ 0 → bs ≠ 0 → pt > 3 →
      Cache.init cs bs wp pt = .error .invalidPlacement) ∧
    (ConfigError.blockSizeZero.message ≠ ConfigError.cacheSizeZero.message ∧
      ConfigError.blockSizeZero.message ≠
        ConfigError.invalidPlacement.message ∧
      ConfigError.cacheSizeZero.message ≠
        ConfigError.invalidPlacement.message) ∧
    (∀ (ops : List Op) (cfg : Config) (rest : List Config) (e : ConfigError),
      Cache.init cfg.cache_size cfg.block_size cfg.write_policy
          cfg.placement_type = .error e →
      e.isRuntimeError = true →
      sweep ops (cfg :: rest) = sweep ops rest) ∧
    (∀ cs bs wp wp' pt (c : Cache), Cache.init cs bs wp pt = .ok c →
      Cache.init cs bs wp' pt = .ok { c with write_policy := wp' }) := by
  refine ⟨?_, ?_, ?_, ⟨by decide, by decide, by decide⟩, ?_, ?_⟩
  · intro cs wp pt
    simp [Cache.init]
  · intro bs wp pt hbs
    simp [Cache.init, hbs]
  · intro cs bs wp pt hcs hbs hpt
    simp [Cache.init, hcs, hbs, hpt]
  · intro ops cfg rest e he hrt
    simp [sweep, he, hrt]
  · exact init_write_policy_irrelevant

/-- Witness for C2 (amended) at concrete configurations: each invalid case
produces its error, and the sweep skips a failing configuration. -/
theorem spec_C2_witness :
    Cache.init 8 0 0 0 = .error .blockSizeZero ∧
    Cache.init 0 4 0 0 = .error .cacheSizeZero ∧
    Cache.init 8 4 0 9 = .error .invalidPlacement ∧
    sweep [] [⟨0, 4, 0, 0⟩, ⟨8, 4, 0, 0⟩] = sweep [] [⟨8, 4, 0, 0⟩] ∧
    Cache.init 8 4 7 0 = .ok { demoCacheWT with write_policy := 7 } :=
  ⟨spec_C2.1 8 0 0,
   spec_C2.2.1 4 0 0 (by decide),
   spec_C2.2.2.1 8 4 0 9 (by decide) (by decide) (by decide),
   spec_C2.2.2.2.2.1 [] ⟨0, 4, 0, 0⟩ [⟨8, 4, 0, 0⟩]
     ConfigError.cacheSizeZero rfl (by decide),
   spec_C2.2.2.2.2.2 8 4 1 7 0 demoCacheWT rfl⟩

/-! ### The concrete dirty-eviction scenario -/

/-- Claim C8: on the 8-byte direct-mapped write-back cache with 4-byte blocks
(`num_sets = 2`), the trace `write 0x00; write 0x08` produces exactly 4 bytes
of cache-to-memory traffic, charged at the eviction by the second write (none
after the first), and 8 bytes of memory-to-cache traffic. -/
theorem spec_C8 :
    (Cache.init 8 4 WritePolicy.WB PlacementType.Direct_Mapped).map
      (fun c0 =>
        (c0.num_sets,
         (replay c0 [Op.write 0x00]).bytes_to_memory,
         (replay c0 [Op.write 0x00]).bytes_to_cache,
         (replay c0 [Op.write 0x00, Op.write 0x08]).bytes_to_memory,
         (replay c0 [Op.write 0x00, Op.write 0x08]).bytes_to_cache)) =
    .ok (2, 0, 4, 4, 8) := by
  rfl

/-! ### Trace-file ingestion -/

/-- Claim C10: a trace line that splits into exactly two fields whose second
field is not valid hexadecimal makes `read_trace_file` raise an uncaught
error, aborting ingestion, while a line with any other field count is
silently skipped. -/
theorem spec_C10 (line : String) (rest : List String) :
    ((pySplit line).length = 2 →
      pyIntHex ((pySplit line).getD 1 "") = none →
      readTraceLines (line :: rest) =
        .error (.valueError ((pySplit line).getD 1 ""))) ∧
    ((pySplit line).length ≠ 2 →
      readTraceLines (line :: rest) = readTraceLines rest) := by
  constructor
  · intro h2 hhex
    simp only [readTraceLines]
    rw [if_pos h2, hhex]
  · intro h2
    simp only [readTraceLines]
    rw [if_neg h2]

/-- Witness for C10: `write zz` aborts ingestion with the hex conversion
error, `one two three` is silently skipped. -/
theorem spec_C10_witness :
    readTraceLines ["write zz", "read 10"] =
      .error (.valueError "zz") ∧
    readTraceLines ["one two three", "read 10"] =
      readTraceLines ["read 10"] :=
  ⟨(spec_C10 "write zz" ["read 10"]).1 (by decide) (by decide),
   (spec_C10 "one two three" ["read 10"]).2 (by decide)⟩

end CacheSim
